import Mathlib

/-
  Shallow embedding of the document reconstruction engine of
  src/src/workers/extractorWorker.ts (the only algorithmically substantial
  part of the repository).  JavaScript numbers are modelled as exact
  rationals; all numeric literals of the source -- 1.5, 2.5, 2.0, 3.0,
  1.12, 1.3, 12 -- are exact rationals, so no rounding is involved.
  JavaScript strings are modelled as Lean strings (lists of characters).
  The JS Array.prototype.sort with a comparator is a stable sort; it is
  modelled by a stable insertion sort for the comparator's total preorder.
-/

namespace IR

inductive Mode
| fast
| accurate
deriving DecidableEq

structure ExtractOptions where
  mode : Mode
  enableOcr : Bool
deriving DecidableEq

/-- Raw positioned token, the ingested form of one pdf.js text item:
str, x, y, fontSize, width.  The claims under study quantify over
already-ingested tokens (fontSize and width come from the transform
magnitudes computed at lines 96-108 of the source, which none of the
claims depend on). -/
structure RawTok where
  str : String
  x : ℚ
  y : ℚ
  fontSize : ℚ
  width : ℚ
deriving DecidableEq

/-- PageParagraph of the source: text, fontSize, bold, y, optional heading. -/
structure PageParagraph where
  text : String
  fontSize : ℚ
  bold : Bool
  y : ℚ
  heading : Option Nat
deriving DecidableEq

/- ----- character classes used by the regexes of the source ----- -/

/-- The JS regex class backslash-s (whitespace), also used by trim. -/
def isJsWs (c : Char) : Bool :=
  c == '\t' || c == '\n' || c == Char.ofNat 11 || c == Char.ofNat 12 ||
  c == '\r' || c == ' ' || c == Char.ofNat 0xA0 || c == Char.ofNat 0x1680 ||
  (0x2000 ≤ c.toNat && c.toNat ≤ 0x200A) ||
  c == Char.ofNat 0x2028 || c == Char.ofNat 0x2029 || c == Char.ofNat 0x202F ||
  c == Char.ofNat 0x205F || c == Char.ofNat 0x3000 || c == Char.ofNat 0xFEFF

/-- Class of the needsSpace end-of-prev test: backslash-s together with
U+00A0 (which backslash-s already contains; kept for literal fidelity). -/
def isJsWsOrNbsp (c : Char) : Bool :=
  isJsWs c || c == Char.ofNat 0xA0

/-- Sentence-terminal marks of the boundary regex: period, bang,
question mark, horizontal ellipsis U+2026. -/
def isTerminalMark (c : Char) : Bool :=
  c == '.' || c == '!' || c == '?' || c == Char.ofNat 0x2026

/-- Closing quote or bracket characters of the boundary regex:
double quote, apostrophe, right double quotation mark U+201D,
right parenthesis, right square bracket. -/
def isClosingQuote (c : Char) : Bool :=
  c == '"' || c == Char.ofNat 39 || c == Char.ofNat 0x201D || c == ')' || c == ']'

/-- Punctuation that forbids a preceding space in needsSpace. -/
def isClosingPunct (c : Char) : Bool :=
  c == ',' || c == '.' || c == ';' || c == ':' || c == '!' || c == '?' || c == ')'

/-- Hyphen, en dash U+2013, em dash U+2014 (needsSpace end-of-prev test). -/
def isDash (c : Char) : Bool :=
  c == '-' || c == Char.ofNat 0x2013 || c == Char.ofNat 0x2014

/-- ASCII letter, the class A-Za-z of the de-hyphenation test. -/
def isAsciiLetter (c : Char) : Bool :=
  ('A' ≤ c && c ≤ 'Z') || ('a' ≤ c && c ≤ 'z')

/- ----- string helpers ----- -/

/-- Does the last character of s satisfy p (regex of shape class-dollar)? -/
def strEndsWith (p : Char → Bool) (s : String) : Bool :=
  match s.data.getLast? with
  | none => false
  | some c => p c

/-- Does the first character of s satisfy p (regex of shape caret-class)? -/
def strHeadIs (p : Char → Bool) (s : String) : Bool :=
  match s.data.head? with
  | none => false
  | some c => p c

/-- The boundary regex of mergeText line 147: the text ends in a
sentence-terminal mark, optionally followed by one closing
quote/bracket, followed by optional whitespace.  Scanned from the
end of the string; exact because the three character classes are
pairwise disjoint. -/
def endsSentenceRegex (s : String) : Bool :=
  match s.data.reverse.dropWhile isJsWs with
  | [] => false
  | c :: rest =>
    if isTerminalMark c then true
    else if isClosingQuote c then
      match rest with
      | [] => false
      | c2 :: _ => isTerminalMark c2
    else false

/-- Test of the soft-wrap de-hyphenation regex: letter then hyphen at
the end of the string. -/
def endsLetterHyphen (s : String) : Bool :=
  match s.data.reverse with
  | '-' :: c :: _ => isAsciiLetter c
  | _ => false

/-- replace of the single trailing hyphen by the empty string. -/
def stripTrailingHyphen (s : String) : String :=
  match s.data.reverse with
  | '-' :: rest => ⟨rest.reverse⟩
  | _ => s

/-- needsSpace of the source (lines 170-178). -/
def needsSpace (prev next : String) : Bool :=
  if prev.data.isEmpty then false
  else if strEndsWith isJsWsOrNbsp prev then false
  else if strHeadIs isClosingPunct next then false
  else if strEndsWith isDash prev then false
  else true

/-- Collapse of each maximal whitespace run to a single space, the
global replace of whitespace-plus by one space. -/
def collapseWs : List Char → List Char
  | [] => []
  | [c] => if isJsWs c then [' '] else [c]
  | c :: d :: rest =>
    if isJsWs c && isJsWs d then collapseWs (d :: rest)
    else (if isJsWs c then ' ' else c) :: collapseWs (d :: rest)

/-- JS String.prototype.trim: strip leading and trailing whitespace. -/
def trimWs (l : List Char) : List Char :=
  ((l.dropWhile isJsWs).reverse.dropWhile isJsWs).reverse

/-- postProcessLineBreaks of the source: collapse whitespace runs to a
single space, then trim. -/
def postProcessLineBreaks (s : String) : String :=
  ⟨trimWs (collapseWs s.data)⟩

/-- escapeAndFormat of the source: replace ampersand, then less-than,
then greater-than, by their HTML entities. -/
def escChar (c : Char) : List Char :=
  if c == '&' then "&amp;".data
  else if c == '<' then "&lt;".data
  else if c == '>' then "&gt;".data
  else [c]

def escapeAndFormat (s : String) : String :=
  ⟨(s.data.map escChar).flatten⟩

/-- Math.abs on exact rationals. -/
def ratAbs (q : ℚ) : ℚ :=
  if q < 0 then -q else q

/- ----- sorting (stable, as JS Array.prototype.sort with a comparator) ----- -/

/-- Stable insertion of a token before the first element b with
le a b; with a reflexive-on-ties le this reproduces the stable order
of the JS sort for the comparator's total preorder. -/
def insertTok (le : RawTok → RawTok → Bool) (a : RawTok) : List RawTok → List RawTok
  | [] => [a]
  | b :: bs => if le a b then a :: b :: bs else b :: insertTok le a bs

def sortToks (le : RawTok → RawTok → Bool) : List RawTok → List RawTok
  | [] => []
  | a :: as => insertTok le a (sortToks le as)

/-- Comparator of line 112 of the source: descending y, then ascending x. -/
def leYX (a b : RawTok) : Bool :=
  b.y < a.y || (a.y == b.y && a.x ≤ b.x)

/-- Comparator of line 124: ascending x within a line. -/
def leX (a b : RawTok) : Bool :=
  a.x ≤ b.x

/- ----- line clustering ----- -/

/-- Line-clustering tolerance of line 118: 1.5 accurate, 2.5 fast. -/
def clusterTol : Mode → ℚ
  | Mode.accurate => 3/2
  | Mode.fast => 5/2

/-- One iteration of the clustering loop of lines 117-123: compare the
incoming token to the first token (anchor) of the last open line; start
a new line when the absolute y-difference exceeds the tolerance, else
append to the open line.  Lines are never empty, so the inner
empty-line case is unreachable. -/
def addTokToLines (mode : Mode) (lines : List (List RawTok)) (r : RawTok) :
    List (List RawTok) :=
  match lines.getLast? with
  | none => lines ++ [[r]]
  | some last =>
    match last.head? with
    | none => lines ++ [[r]]
    | some anchor =>
      if ratAbs (anchor.y - r.y) > clusterTol mode then lines ++ [[r]]
      else lines.dropLast ++ [last ++ [r]]

/-- Cluster sorted tokens into visual lines (lines 116-123 of the
source). -/
def clusterLines (mode : Mode) (raws : List RawTok) : List (List RawTok) :=
  raws.foldl (addTokToLines mode) []

/- ----- paragraph assembly ----- -/

/-- Same-visual-line threshold of line 126: 2.0 accurate, 3.0 fast. -/
def yThreshold : Mode → ℚ
  | Mode.accurate => 2
  | Mode.fast => 3

/-- Join of the tokens of one line: map to str then join with a single
space (the unconditional join of lines 137, 143, 154, 161). -/
def joinLine (line : List RawTok) : String :=
  String.intercalate " " (line.map RawTok.str)

/-- averageFontSize of lines 227-230: 12 for an empty page, else the
arithmetic mean of the token font sizes. -/
def averageFontSize (raws : List RawTok) : ℚ :=
  if raws.length = 0 then 12
  else (raws.foldl (fun a r => a + r.fontSize) 0) / (raws.length : ℚ)

/-- Fresh draft opened from a line (lines 136-139 and 153): joined text,
font size and y of the line's first token. -/
def newDraft (line : List RawTok) (r : RawTok) : PageParagraph :=
  { text := joinLine line, fontSize := r.fontSize, bold := false, y := r.y, heading := none }

/-- pushCurrent of lines 126-131: post-process the draft text, push. -/
def finalizePara (p : PageParagraph) : PageParagraph :=
  { p with text := postProcessLineBreaks p.text }

/-- The boundary test of line 147: sentence-terminal regex, or font-size
jump above 12 percent (1.12 = 28/25 exactly), or accurate mode. -/
def boundaryTest (mode : Mode) (cur : PageParagraph) (r : RawTok) : Bool :=
  endsSentenceRegex cur.text ||
  decide (r.fontSize > cur.fontSize * (28/25 : ℚ)) ||
  (mode == Mode.accurate)

/-- The heading rule of lines 151-152: a draft whose font size is at
least 1.3 times the page average (13/10 exactly) is tagged level 2. -/
def markHeading (avgFont : ℚ) (cur : PageParagraph) : PageParagraph :=
  if avgFont * (13/10 : ℚ) ≤ cur.fontSize then { cur with heading := some 2 } else cur

/-- One iteration of the for-loop of lines 134-166 of the source.  The
state is the pushed paragraph list plus the open draft ('current').
Clustered lines are never empty; the empty-line case is unreachable
and leaves the state unchanged. -/
def stepLine (mode : Mode) (avgFont : ℚ)
    (st : List PageParagraph × Option PageParagraph) (line : List RawTok) :
    List PageParagraph × Option PageParagraph :=
  match line with
  | [] => st
  | r :: _ =>
    match st.2 with
    | none => (st.1, some (newDraft line r))
    | some cur =>
      if ratAbs (r.y - cur.y) < yThreshold mode then
        -- same visual line: continuation fragment, joined by needsSpace
        let t := if needsSpace cur.text r.str then cur.text ++ " " else cur.text
        (st.1, some { cur with text := t ++ joinLine line,
                               y := (cur.y + r.y) / 2,
                               fontSize := (cur.fontSize + r.fontSize) / 2 })
      else if boundaryTest mode cur r then
        (st.1 ++ [finalizePara (markHeading avgFont cur)], some (newDraft line r))
      else
        -- soft line break: de-hyphenate or insert a space
        let t := if endsLetterHyphen cur.text then stripTrailingHyphen cur.text
                 else cur.text ++ " "
        (st.1, some { cur with text := t ++ joinLine line,
                               y := r.y,
                               fontSize := (cur.fontSize + r.fontSize) / 2 })

/-- The sorted token list of a page (line 112). -/
def sortedRaws (toks : List RawTok) : List RawTok :=
  sortToks leYX toks

/-- The clustered, x-sorted lines of a page (lines 116-124). -/
def pageLines (mode : Mode) (toks : List RawTok) : List (List RawTok) :=
  (clusterLines mode (sortedRaws toks)).map (sortToks leX)

/-- The assembler fold of lines 134-166, starting from no output and no
open draft. -/
def runAsm (opts : ExtractOptions) (toks : List RawTok) :
    List PageParagraph × Option PageParagraph :=
  (pageLines opts.mode toks).foldl
    (stepLine opts.mode (averageFontSize (sortedRaws toks))) ([], none)

/-- mergeText of the source (lines 93-167): run the assembler, then the
final pushCurrent flush of line 166 (note: the flush applies the
whitespace post-processing but not the heading rule). -/
def mergeText (opts : ExtractOptions) (toks : List RawTok) : List PageParagraph :=
  match (runAsm opts toks).2 with
  | none => (runAsm opts toks).1
  | some cur => (runAsm opts toks).1 ++ [finalizePara cur]

/- ----- document-level job flow (onmessage, lines 15-81) ----- -/

inductive BlockKind
| p
| h
deriving DecidableEq

/-- Persisted block: kind p or h, optional heading level, escaped text. -/
structure Block where
  kind : BlockKind
  level : Option Nat
  text : String
deriving DecidableEq

/-- Lines 33-37 of the source: a paragraph with a heading level becomes
an h block carrying the level, otherwise a p block with no level. -/
def paraToBlock (pp : PageParagraph) : Block :=
  match pp.heading with
  | some lv => { kind := BlockKind.h, level := some lv, text := escapeAndFormat pp.text }
  | none => { kind := BlockKind.p, level := none, text := escapeAndFormat pp.text }

/-- The literal fallback marker of line 59. -/
def sentinelText : String := "[Unextracted page; open PDF view]"

/-- Outcome of getTextContent for one page: the ingested tokens, or a
page-level extraction error. -/
inductive PageFetch
| ok (toks : List RawTok)
| err

/-- Blocks contributed by one page (the try/catch of lines 31-61): on
success the merged paragraphs; on a page error, the OCR text as one
paragraph when OCR is enabled (an OCR failure escapes to the outer
catch and fails the job), else the single sentinel paragraph. -/
def extractPage (opts : ExtractOptions) (ocrRes : Except Unit String) (pg : PageFetch) :
    Except Unit (List Block) :=
  match pg with
  | PageFetch.ok toks => Except.ok ((mergeText opts toks).map paraToBlock)
  | PageFetch.err =>
    if opts.enableOcr then
      match ocrRes with
      | Except.ok t =>
          Except.ok [{ kind := BlockKind.p, level := none, text := escapeAndFormat t }]
      | Except.error e => Except.error e
    else
      Except.ok [{ kind := BlockKind.p, level := none, text := escapeAndFormat sentinelText }]

/-- The page loop of lines 29-61, pages numbered from i (the source
numbers pdf pages from 1); blocks concatenate in page order. -/
def processPagesFrom (opts : ExtractOptions) (ocr : Nat → Except Unit String) (i : Nat) :
    List PageFetch → Except Unit (List Block)
  | [] => Except.ok []
  | pg :: rest =>
    match extractPage opts (ocr i) pg with
    | Except.error e => Except.error e
    | Except.ok bs =>
      match processPagesFrom opts ocr (i + 1) rest with
      | Except.error e => Except.error e
      | Except.ok bs2 => Except.ok (bs ++ bs2)

/-- Environment of one extraction job: the parsed document (none when
the blob is missing or the bytes cannot be parsed, lines 22-26), the
OCR capability per page number, and whether the two IndexedDB write
transactions (putExtracted to the content store, updateDoc to the docs
store) commit.  Each store write is atomic: it either commits whole or
leaves the store untouched. -/
structure JobEnv where
  doc : Option (List PageFetch)
  ocr : Nat → Except Unit String
  contentWriteOk : Bool
  docsWriteOk : Bool

inductive Outcome
| completed
| failed
deriving DecidableEq

/-- Observable result of one job: the reported outcome (done message vs
error message, lines 66 and 73), the content-store row persisted for
the document id, and the page count written to the docs store. -/
structure RunResult where
  outcome : Outcome
  persisted : Option (List Block)
  reportedPages : Option Nat
deriving DecidableEq

/-- The whole onmessage flow of lines 15-81: parse the document, run the
page loop, then putExtracted (line 63), then updateDoc with the page
count (line 64), then report done; any failure falls to the catch of
line 72 and reports an error.  A failure of updateDoc happens after the
content write has already committed. -/
def runExtraction (opts : ExtractOptions) (env : JobEnv) : RunResult :=
  match env.doc with
  | none => { outcome := Outcome.failed, persisted := none, reportedPages := none }
  | some pages =>
    match processPagesFrom opts env.ocr 1 pages with
    | Except.error _ =>
        { outcome := Outcome.failed, persisted := none, reportedPages := none }
    | Except.ok blocks =>
      if env.contentWriteOk then
        if env.docsWriteOk then
          { outcome := Outcome.completed, persisted := some blocks,
            reportedPages := some pages.length }
        else
          { outcome := Outcome.failed, persisted := some blocks, reportedPages := none }
      else
        { outcome := Outcome.failed, persisted := none, reportedPages := none }

/- ----- spec-side predicates (phrased after the specification text) ----- -/

/-- Spec reading of the boundary punctuation rule: the text ends in a
sentence-terminal mark, optionally followed by one closing
quote/bracket character, followed by optional trailing whitespace. -/
def endsSentenceSpec (s : String) : Prop :=
  ∃ pre t opt white, s.data = pre ++ t :: (opt ++ white) ∧
    isTerminalMark t = true ∧
    (opt = [] ∨ ∃ c, opt = [c] ∧ isClosingQuote c = true) ∧
    (∀ w ∈ white, isJsWs w = true)

/-- No two adjacent whitespace characters. -/
def noWsRun : List Char → Bool
  | [] => true
  | [_] => true
  | c :: d :: rest => !(isJsWs c && isJsWs d) && noWsRun (d :: rest)

/-- Every whitespace character is a plain space. -/
def spaceOnlyWs (l : List Char) : Bool :=
  l.all (fun c => !isJsWs c || c == ' ')

/-- Neither end of the list is whitespace. -/
def trimmedEnds (l : List Char) : Bool :=
  (match l.head? with
   | none => true
   | some c => !isJsWs c) &&
  (match l.getLast? with
   | none => true
   | some c => !isJsWs c)

/-- Spec reading of paragraph finalization text hygiene: internal
whitespace runs collapsed to single spaces and the text trimmed. -/
def isCollapsedText (s : String) : Prop :=
  noWsRun s.data = true ∧ spaceOnlyWs s.data = true ∧ trimmedEnds s.data = true

/-- Per-page blocks of the no-OCR job (the two branches reachable when
enableOcr is false): the merged paragraphs, or the single sentinel
paragraph for a page whose extraction raised. -/
def noOcrPageBlocks (opts : ExtractOptions) : PageFetch → List Block
  | PageFetch.ok toks => (mergeText opts toks).map paraToBlock
  | PageFetch.err => [{ kind := BlockKind.p, level := none, text := escapeAndFormat sentinelText }]

/- ----- helper lemmas: lengths ----- -/

theorem insertTok_length (le : RawTok → RawTok → Bool) (a : RawTok) :
    ∀ l : List RawTok, (insertTok le a l).length = l.length + 1 := by
  intro l
  induction l with
  | nil => rfl
  | cons b bs ih =>
    simp only [insertTok]
    by_cases h : le a b = true
    · simp [h]
    · simp [h, ih]

theorem sortToks_length (le : RawTok → RawTok → Bool) :
    ∀ l : List RawTok, (sortToks le l).length = l.length := by
  intro l
  induction l with
  | nil => rfl
  | cons a as ih => simp [sortToks, insertTok_length, ih]

theorem addTokToLines_length (mode : Mode) (lines : List (List RawTok)) (r : RawTok) :
    (addTokToLines mode lines r).length ≤ lines.length + 1 := by
  unfold addTokToLines
  rcases h : lines.getLast? with _ | last
  · simp
  · rcases h2 : last.head? with _ | anchor
    · simp [h2]
    · simp only [h2]
      by_cases hc : ratAbs (anchor.y - r.y) > clusterTol mode
      · simp [hc]
      · simp only [hc, if_false, List.length_append, List.length_dropLast,
          List.length_cons, List.length_nil]
        omega

theorem clusterLines_length_le (mode : Mode) (l : List RawTok) :
    (clusterLines mode l).length ≤ l.length := by
  suffices h : ∀ (raws : List RawTok) (acc : List (List RawTok)),
      (raws.foldl (addTokToLines mode) acc).length ≤ acc.length + raws.length by
    simpa [clusterLines] using h l []
  intro raws
  induction raws with
  | nil => intro acc; simp
  | cons r rs ih =>
    intro acc
    have h1 := ih (addTokToLines mode acc r)
    have h2 := addTokToLines_length mode acc r
    simp only [List.foldl_cons, List.length_cons]
    omega

/-- Output size measure of an assembler state: pushed paragraphs plus
the open draft. -/
def stCount (st : List PageParagraph × Option PageParagraph) : Nat :=
  st.1.length + (match st.2 with
                 | none => 0
                 | some _ => 1)

theorem stepLine_stCount (mode : Mode) (avg : ℚ)
    (st : List PageParagraph × Option PageParagraph) (line : List RawTok) :
    stCount (stepLine mode avg st line) ≤ stCount st + 1 := by
  match line with
  | [] => simp [stepLine]
  | r :: rest =>
    match h2 : st.2 with
    | none => simp [stepLine, h2, stCount]
    | some cur =>
      simp only [stepLine, h2]
      by_cases hsl : ratAbs (r.y - cur.y) < yThreshold mode
      · simp [hsl, stCount]
      · by_cases hb : boundaryTest mode cur r = true
        · simp [hsl, hb, stCount, h2]
        · simp [hsl, hb, stCount, h2]

theorem foldl_stepLine_stCount (mode : Mode) (avg : ℚ) :
    ∀ (lines : List (List RawTok)) (st : List PageParagraph × Option PageParagraph),
      stCount (lines.foldl (stepLine mode avg) st) ≤ stCount st + lines.length := by
  intro lines
  induction lines with
  | nil => intro st; simp
  | cons line rest ih =>
    intro st
    have h1 := ih (stepLine mode avg st line)
    have h2 := stepLine_stCount mode avg st line
    simp only [List.foldl_cons, List.length_cons]
    omega

theorem mergeText_length_eq_stCount (opts : ExtractOptions) (toks : List RawTok) :
    (mergeText opts toks).length = stCount (runAsm opts toks) := by
  unfold mergeText stCount
  match h : (runAsm opts toks).2 with
  | none => simp [h]
  | some cur => simp [h]

theorem pageLines_length_le (mode : Mode) (toks : List RawTok) :
    (pageLines mode toks).length ≤ toks.length := by
  unfold pageLines sortedRaws
  rw [List.length_map]
  exact le_trans (clusterLines_length_le mode _) (le_of_eq (sortToks_length leYX toks))

/- ----- unfolding equations (definitional) ----- -/

/-- stepLine on an Accumulating state and a nonempty line, written out. -/
theorem stepLine_eq (mode : Mode) (avg : ℚ) (ps : List PageParagraph)
    (cur : PageParagraph) (r : RawTok) (rest : List RawTok) :
    stepLine mode avg (ps, some cur) (r :: rest) =
      if ratAbs (r.y - cur.y) < yThreshold mode then
        (ps, some { cur with
          text := (if needsSpace cur.text r.str then cur.text ++ " " else cur.text) ++
            joinLine (r :: rest),
          y := (cur.y + r.y) / 2,
          fontSize := (cur.fontSize + r.fontSize) / 2 })
      else if boundaryTest mode cur r then
        (ps ++ [finalizePara (markHeading avg cur)], some (newDraft (r :: rest) r))
      else
        (ps, some { cur with
          text := (if endsLetterHyphen cur.text then stripTrailingHyphen cur.text
                   else cur.text ++ " ") ++ joinLine (r :: rest),
          y := r.y,
          fontSize := (cur.fontSize + r.fontSize) / 2 }) := rfl

/-- runExtraction when the document cannot be opened. -/
theorem runExtraction_none (opts : ExtractOptions) (env : JobEnv)
    (h : env.doc = none) :
    runExtraction opts env =
      { outcome := Outcome.failed, persisted := none, reportedPages := none } := by
  unfold runExtraction
  rw [h]

/-- runExtraction when the document parses to a page list, written out. -/
theorem runExtraction_some (opts : ExtractOptions) (env : JobEnv)
    (pages : List PageFetch) (h : env.doc = some pages) :
    runExtraction opts env =
      (match processPagesFrom opts env.ocr 1 pages with
       | Except.error _ =>
          { outcome := Outcome.failed, persisted := none, reportedPages := none }
       | Except.ok blocks =>
         if env.contentWriteOk then
           if env.docsWriteOk then
             { outcome := Outcome.completed, persisted := some blocks,
               reportedPages := some pages.length }
           else
             { outcome := Outcome.failed, persisted := some blocks, reportedPages := none }
         else
           { outcome := Outcome.failed, persisted := none, reportedPages := none }) := by
  unfold runExtraction
  rw [h]

/-- runExtraction when the page loop fails (an OCR error escaping to the
outer catch). -/
theorem runExtraction_err (opts : ExtractOptions) (env : JobEnv)
    (pages : List PageFetch) (e : Unit) (h : env.doc = some pages)
    (hpp : processPagesFrom opts env.ocr 1 pages = Except.error e) :
    runExtraction opts env =
      { outcome := Outcome.failed, persisted := none, reportedPages := none } := by
  rw [runExtraction_some opts env pages h, hpp]

/-- runExtraction when the page loop succeeds, as a function of the two
store writes. -/
theorem runExtraction_ok (opts : ExtractOptions) (env : JobEnv)
    (pages : List PageFetch) (blocks : List Block) (h : env.doc = some pages)
    (hpp : processPagesFrom opts env.ocr 1 pages = Except.ok blocks) :
    runExtraction opts env =
      (if env.contentWriteOk then
        if env.docsWriteOk then
          { outcome := Outcome.completed, persisted := some blocks,
            reportedPages := some pages.length }
        else
          { outcome := Outcome.failed, persisted := some blocks, reportedPages := none }
      else
        { outcome := Outcome.failed, persisted := none, reportedPages := none }) := by
  rw [runExtraction_some opts env pages h, hpp]

/- ----- helper lemmas: character classes and the boundary regex ----- -/

theorem terminal_not_ws {c : Char} (h : isTerminalMark c = true) : isJsWs c = false := by
  simp only [isTerminalMark, Bool.or_eq_true, beq_iff_eq] at h
  rcases h with ((rfl | rfl) | rfl) | rfl <;> decide

theorem closing_not_ws {c : Char} (h : isClosingQuote c = true) : isJsWs c = false := by
  simp only [isClosingQuote, Bool.or_eq_true, beq_iff_eq] at h
  rcases h with (((rfl | rfl) | rfl) | rfl) | rfl <;> decide

theorem closing_not_terminal {c : Char} (h : isClosingQuote c = true) :
    isTerminalMark c = false := by
  simp only [isClosingQuote, Bool.or_eq_true, beq_iff_eq] at h
  rcases h with (((rfl | rfl) | rfl) | rfl) | rfl <;> decide

theorem dash_not_wsnbsp {c : Char} (h : isDash c = true) : isJsWsOrNbsp c = false := by
  simp only [isDash, Bool.or_eq_true, beq_iff_eq] at h
  rcases h with (rfl | rfl) | rfl <;> decide

theorem dropWhile_append_all {α : Type} (p : α → Bool) (a b : List α)
    (h : ∀ x ∈ a, p x = true) : (a ++ b).dropWhile p = b.dropWhile p := by
  induction a with
  | nil => simp
  | cons x xs ih =>
    have hx : p x = true := h x (List.mem_cons_self x xs)
    simp only [List.cons_append]
    rw [List.dropWhile_cons_of_pos hx]
    exact ih (fun y hy => h y (List.mem_cons_of_mem x hy))

theorem dropWhile_head_not {α : Type} (p : α → Bool) :
    ∀ (l : List α) (c : α), (l.dropWhile p).head? = some c → p c = false := by
  intro l
  induction l with
  | nil => intro c h; simp [List.dropWhile] at h
  | cons a as ih =>
    intro c h
    by_cases ha : p a = true
    · rw [List.dropWhile_cons_of_pos ha] at h
      exact ih c h
    · rw [List.dropWhile_cons_of_neg (by simpa using ha)] at h
      simp only [List.head?_cons, Option.some.injEq] at h
      subst h
      simpa using ha

/-- The scan of endsSentenceRegex agrees with the spec's reading of the
boundary punctuation rule.  Exactness rests on the pairwise
disjointness of the whitespace, closing and terminal classes. -/
theorem endsSentenceRegex_eq_true_iff (s : String) :
    endsSentenceRegex s = true ↔ endsSentenceSpec s := by
  constructor
  · intro h
    unfold endsSentenceRegex at h
    split at h
    · exact absurd h (by simp)
    next c rest hd =>
      have hT : ∀ x ∈ s.data.reverse.takeWhile isJsWs, isJsWs x = true :=
        fun x hx => List.mem_takeWhile_imp hx
      have hsplit : s.data.reverse.takeWhile isJsWs ++ (c :: rest) = s.data.reverse := by
        rw [← hd]
        exact List.takeWhile_append_dropWhile _ _
      have hdata : s.data = (c :: rest).reverse ++ (s.data.reverse.takeWhile isJsWs).reverse := by
        have h2 := congrArg List.reverse hsplit
        simpa [List.reverse_append] using h2.symm
      by_cases h1 : isTerminalMark c = true
      · refine ⟨rest.reverse, c, [], (s.data.reverse.takeWhile isJsWs).reverse, ?_, h1,
          Or.inl rfl, fun w hw => hT w (List.mem_reverse.mp hw)⟩
        simpa [List.append_assoc] using hdata
      · rw [if_neg (by simpa using h1)] at h
        by_cases h2 : isClosingQuote c = true
        · rw [if_pos h2] at h
          split at h
          · exact absurd h (by simp)
          next c2 rest2 =>
            refine ⟨rest2.reverse, c2, [c], (s.data.reverse.takeWhile isJsWs).reverse, ?_, h,
              Or.inr ⟨c, rfl, h2⟩, fun w hw => hT w (List.mem_reverse.mp hw)⟩
            simpa [List.append_assoc] using hdata
        · rw [if_neg (by simpa using h2)] at h
          exact absurd h (by simp)
  · rintro ⟨pre, t, opt, white, hdata, hterm, hopt, hws⟩
    unfold endsSentenceRegex
    have hrev : s.data.reverse = white.reverse ++ (opt.reverse ++ (t :: pre.reverse)) := by
      rw [hdata]
      simp [List.reverse_append]
    rw [hrev, dropWhile_append_all isJsWs _ _ (fun x hx => hws x (List.mem_reverse.mp hx))]
    rcases hopt with rfl | ⟨c, rfl, hc⟩
    · simp only [List.reverse_nil, List.nil_append]
      rw [List.dropWhile_cons_of_neg (by simp [terminal_not_ws hterm])]
      simp [hterm]
    · simp only [List.reverse_cons, List.reverse_nil, List.nil_append, List.cons_append]
      rw [List.dropWhile_cons_of_neg (by simp [closing_not_ws hc])]
      simp [closing_not_terminal hc, hc, hterm]

/-- The boundary test of the source, restated with the spec's three
disjuncts. -/
theorem boundaryTest_eq_true_iff (mode : Mode) (cur : PageParagraph) (r : RawTok) :
    boundaryTest mode cur r = true ↔
      (endsSentenceSpec cur.text ∨ r.fontSize > cur.fontSize * (28/25 : ℚ) ∨
        mode = Mode.accurate) := by
  unfold boundaryTest
  simp [Bool.or_eq_true, decide_eq_true_eq, endsSentenceRegex_eq_true_iff, or_assoc]

/- ----- helper lemmas: whitespace collapsing and trimming ----- -/

theorem noWsRun_tail (c : Char) (l : List Char) (h : noWsRun (c :: l) = true) :
    noWsRun l = true := by
  match l with
  | [] => rfl
  | d :: ds =>
    rw [noWsRun, Bool.and_eq_true] at h
    exact h.2

theorem noWsRun_cons (x : Char) (l : List Char)
    (hx : isJsWs x = false ∨ ∀ c, l.head? = some c → isJsWs c = false)
    (hl : noWsRun l = true) : noWsRun (x :: l) = true := by
  match l with
  | [] => rfl
  | y :: ys =>
    rw [noWsRun, Bool.and_eq_true]
    refine ⟨?_, hl⟩
    rcases hx with hx | hx
    · simp [hx]
    · simp [hx y rfl]

theorem collapseWs_head_not_ws (c : Char) (cs : List Char) (hc : isJsWs c = false) :
    (collapseWs (c :: cs)).head? = some c := by
  match cs with
  | [] => simp [collapseWs, hc]
  | d :: rest => simp [collapseWs, hc]

theorem collapseWs_noWsRun : ∀ l : List Char, noWsRun (collapseWs l) = true
  | [] => by simp [collapseWs, noWsRun]
  | [c] => by
    by_cases h : isJsWs c = true <;> simp [collapseWs, h, noWsRun]
  | c :: d :: rest => by
    have ih := collapseWs_noWsRun (d :: rest)
    by_cases h1 : isJsWs c = true
    · by_cases h2 : isJsWs d = true
      · simpa [collapseWs, h1, h2] using ih
      · have h2f : isJsWs d = false := by simpa using h2
        have hh := collapseWs_head_not_ws d rest h2f
        simp only [collapseWs, h1, h2f, Bool.and_false, Bool.false_and, if_neg,
          Bool.false_eq_true, not_false_iff, if_true]
        exact noWsRun_cons _ _ (Or.inr (fun x hx => by
          rw [hh] at hx
          cases hx
          exact h2f)) ih
    · have h1f : isJsWs c = false := by simpa using h1
      simp only [collapseWs, h1f, Bool.false_and, Bool.false_eq_true, not_false_iff,
        if_neg, if_false]
      exact noWsRun_cons _ _ (Or.inl h1f) ih

theorem collapseWs_mem : ∀ (l : List Char) (x : Char), x ∈ collapseWs l →
    (!isJsWs x || x == ' ') = true
  | [], x => by simp [collapseWs]
  | [c], x => by
    by_cases h : isJsWs c = true <;> intro hx <;> simp [collapseWs, h] at hx <;>
      subst hx <;> simp [h]
  | c :: d :: rest, x => by
    intro hx
    have ih := collapseWs_mem (d :: rest)
    by_cases h1 : isJsWs c = true
    · by_cases h2 : isJsWs d = true
      · rw [show collapseWs (c :: d :: rest) = collapseWs (d :: rest) by
          simp [collapseWs, h1, h2]] at hx
        exact ih x hx
      · rw [show collapseWs (c :: d :: rest) = ' ' :: collapseWs (d :: rest) by
          simp [collapseWs, h1, h2]] at hx
        rcases List.mem_cons.mp hx with rfl | hx
        · simp
        · exact ih x hx
    · have h1f : isJsWs c = false := by simpa using h1
      rw [show collapseWs (c :: d :: rest) = c :: collapseWs (d :: rest) by
        simp [collapseWs, h1f]] at hx
      rcases List.mem_cons.mp hx with rfl | hx
      · simp [h1f]
      · exact ih x hx

theorem noWsRun_prefix : ∀ (a b : List Char), noWsRun (a ++ b) = true → noWsRun a = true
  | [], _ => fun _ => rfl
  | [_], _ => fun _ => rfl
  | x :: y :: xs, b => fun h => by
    have h2 : noWsRun (x :: y :: (xs ++ b)) = true := by simpa using h
    rw [noWsRun, Bool.and_eq_true] at h2
    rw [noWsRun, Bool.and_eq_true]
    exact ⟨h2.1, noWsRun_prefix (y :: xs) b h2.2⟩

theorem noWsRun_suffix : ∀ (a b : List Char), noWsRun (a ++ b) = true → noWsRun b = true
  | [], _ => fun h => h
  | x :: xs, b => fun h => noWsRun_suffix xs b (noWsRun_tail x (xs ++ b) (by simpa using h))

/-- Decomposition of a list as the reverse-side trim: dropping trailing
whitespace leaves a prefix of the original list. -/
theorem revDrop_decomp (a : List Char) :
    a = (a.reverse.dropWhile isJsWs).reverse ++ (a.reverse.takeWhile isJsWs).reverse := by
  have h1 : a.reverse.takeWhile isJsWs ++ a.reverse.dropWhile isJsWs = a.reverse :=
    List.takeWhile_append_dropWhile _ _
  have h2 : (a.reverse.takeWhile isJsWs ++ a.reverse.dropWhile isJsWs).reverse = a := by
    rw [h1, List.reverse_reverse]
  rw [List.reverse_append] at h2
  exact h2.symm

theorem trimWs_trimmedEnds (l : List Char) : trimmedEnds (trimWs l) = true := by
  unfold trimWs
  rw [trimmedEnds, Bool.and_eq_true]
  constructor
  · rcases hB : ((l.dropWhile isJsWs).reverse.dropWhile isJsWs).reverse with _ | ⟨x, xs⟩
    · simp
    · have hA := revDrop_decomp (l.dropWhile isJsWs)
      rw [hB] at hA
      have hxA : (l.dropWhile isJsWs).head? = some x := by
        rw [hA]
        simp
      have := dropWhile_head_not isJsWs l x hxA
      simp [hB, this]
  · rw [List.getLast?_reverse]
    rcases hB : (l.dropWhile isJsWs).reverse.dropWhile isJsWs with _ | ⟨x, xs⟩
    · simp
    · have : (l.dropWhile isJsWs).reverse.dropWhile isJsWs = x :: xs := hB
      have hx := dropWhile_head_not isJsWs (l.dropWhile isJsWs).reverse x (by rw [hB]; rfl)
      simp [hB, hx]

theorem trimWs_subset (l : List Char) : ∀ x, x ∈ trimWs l → x ∈ l := by
  intro x hx
  unfold trimWs at hx
  rw [List.mem_reverse] at hx
  have hx2 : x ∈ (l.dropWhile isJsWs).reverse := List.dropWhile_subset _ hx
  rw [List.mem_reverse] at hx2
  exact List.dropWhile_subset _ hx2

theorem trimWs_noWsRun (l : List Char) (h : noWsRun l = true) :
    noWsRun (trimWs l) = true := by
  unfold trimWs
  have hA : noWsRun (l.dropWhile isJsWs) = true := by
    have hsplit : l.takeWhile isJsWs ++ l.dropWhile isJsWs = l :=
      List.takeWhile_append_dropWhile _ _
    exact noWsRun_suffix (l.takeWhile isJsWs) (l.dropWhile isJsWs) (by rw [hsplit]; exact h)
  have hdec := revDrop_decomp (l.dropWhile isJsWs)
  exact noWsRun_prefix _ _ (by rw [← hdec]; exact hA)

/-- The text produced by postProcessLineBreaks satisfies the spec's
collapse-and-trim description. -/
theorem postProcess_isCollapsed (s : String) : isCollapsedText (postProcessLineBreaks s) := by
  have hdata : (postProcessLineBreaks s).data = trimWs (collapseWs s.data) := rfl
  refine ⟨?_, ?_, ?_⟩
  · rw [hdata]
    exact trimWs_noWsRun _ (collapseWs_noWsRun s.data)
  · rw [hdata]
    unfold spaceOnlyWs
    rw [List.all_eq_true]
    intro x hx
    exact collapseWs_mem s.data x (trimWs_subset _ x hx)
  · rw [hdata]
    exact trimWs_trimmedEnds _

/- ----- helper lemmas: assembler invariants ----- -/

theorem stepLine_heading_none (mode : Mode) (avg : ℚ)
    (st : List PageParagraph × Option PageParagraph) (line : List RawTok)
    (h : ∀ c, st.2 = some c → c.heading = none) :
    ∀ c, (stepLine mode avg st line).2 = some c → c.heading = none := by
  match line with
  | [] =>
    simpa [stepLine] using h
  | r :: rest =>
    match h2 : st.2 with
    | none =>
      intro c hc
      simp only [stepLine, h2] at hc
      cases hc
      rfl
    | some cur =>
      have hcur := h cur h2
      intro c hc
      simp only [stepLine, h2] at hc
      split_ifs at hc <;> (cases hc; first | rfl | exact hcur)

theorem foldl_heading_none (mode : Mode) (avg : ℚ) :
    ∀ (lines : List (List RawTok)) (st : List PageParagraph × Option PageParagraph),
      (∀ c, st.2 = some c → c.heading = none) →
      ∀ c, (lines.foldl (stepLine mode avg) st).2 = some c → c.heading = none := by
  intro lines
  induction lines with
  | nil => intro st h; simpa using h
  | cons line rest ih =>
    intro st h
    exact ih (stepLine mode avg st line) (stepLine_heading_none mode avg st line h)

/-- A draft open at any point of the assembler run is never tagged as a
heading: tagging happens only on the boundary path, right before the
draft is pushed. -/
theorem runAsm_heading_none (opts : ExtractOptions) (toks : List RawTok) :
    ∀ c, (runAsm opts toks).2 = some c → c.heading = none := by
  unfold runAsm
  exact foldl_heading_none _ _ _ ([], none) (by intro c h; cases h)

/- ----- helper lemmas: needsSpace ----- -/

theorem needsSpace_eq_false_of_dash (prev next : String)
    (h : strEndsWith isDash prev = true) : needsSpace prev next = false := by
  have hne : prev.data.isEmpty = false := by
    unfold strEndsWith at h
    rcases hd : prev.data with _ | ⟨c, cs⟩
    · rw [hd] at h
      simp at h
    · simp
  have hws : strEndsWith isJsWsOrNbsp prev = false := by
    unfold strEndsWith at h ⊢
    rcases hl : prev.data.getLast? with _ | c
    · rfl
    · rw [hl] at h
      exact dash_not_wsnbsp h
  unfold needsSpace
  rw [if_neg (by simp [hne]), if_neg (by simp [hws])]
  by_cases hcp : strHeadIs isClosingPunct next = true
  · rw [if_pos hcp]
  · rw [if_neg hcp, if_pos h]

/-- needsSpace restated as the spec's exception list: a space is needed
exactly when none of the three exceptions applies (and the prior string
is nonempty). -/
theorem needsSpace_eq_true_iff (prev next : String) :
    needsSpace prev next = true ↔
      (prev.data ≠ [] ∧ strEndsWith isJsWsOrNbsp prev = false ∧
        strHeadIs isClosingPunct next = false ∧ strEndsWith isDash prev = false) := by
  unfold needsSpace
  split_ifs with h1 h2 h3 h4
  · simp_all [List.isEmpty_iff]
  · simp_all
  · simp_all
  · simp_all
  · simp_all [List.isEmpty_iff]

/- ----- helper lemmas: the no-OCR page loop ----- -/

theorem processPagesFrom_noOcr (opts : ExtractOptions) (h : opts.enableOcr = false)
    (ocr : Nat → Except Unit String) :
    ∀ (pages : List PageFetch) (i : Nat),
      processPagesFrom opts ocr i pages =
        Except.ok ((pages.map (noOcrPageBlocks opts)).flatten) := by
  intro pages
  induction pages with
  | nil => intro i; rfl
  | cons pg rest ih =>
    intro i
    rw [processPagesFrom]
    have hpg : extractPage opts (ocr i) pg = Except.ok (noOcrPageBlocks opts pg) := by
      cases pg with
      | ok toks => rfl
      | err => simp [extractPage, h, noOcrPageBlocks]
    rw [hpg, ih (i + 1)]
    simp

/- ----- concrete fixtures used by the claims ----- -/

def fastNoOcr : ExtractOptions := ⟨Mode.fast, false⟩

def accNoOcr : ExtractOptions := ⟨Mode.accurate, false⟩

def c2toks : List RawTok :=
  [⟨"End.", 0, 100, 10, 0⟩, ⟨"TITLE", 0, 50, 20, 0⟩]

def c2wtoks : List RawTok := [⟨"Hi", 0, 0, 10, 0⟩]

def c3lineToks : List RawTok :=
  [⟨"Hello", 0, 0, 10, 0⟩, ⟨",", 10, 0, 10, 0⟩]

def c4toks : List RawTok :=
  [⟨"a", 0, 100, 10, 0⟩, ⟨"B", 0, 491/5, 100, 0⟩]

def c5toks : List RawTok :=
  [⟨"conven-", 0, 100, 10, 0⟩, ⟨"tion", 0, 90, 10, 0⟩]

def c6toksA : List RawTok :=
  [⟨"Big", 0, 100, 15, 0⟩, ⟨"title", 10, 100, 5, 0⟩,
   ⟨"Body", 0, 80, 10, 0⟩, ⟨"More", 0, 60, 10, 0⟩]

def c6toksB : List RawTok :=
  [⟨"Big", 0, 100, 11, 0⟩, ⟨"title", 10, 100, 9, 0⟩,
   ⟨"Body", 0, 80, 10, 0⟩, ⟨"More", 0, 60, 10, 0⟩]

def c6toksC : List RawTok :=
  [⟨"Body.", 0, 100, 10, 0⟩, ⟨"Big", 0, 80, 15, 0⟩, ⟨"x", 10, 80, 5, 0⟩]

def c7env : JobEnv := ⟨some [PageFetch.err], fun _ => Except.error (), true, true⟩

def c8env : JobEnv := ⟨some [PageFetch.err], fun _ => Except.error (), true, false⟩

def c8envOk : JobEnv := ⟨some [PageFetch.err], fun _ => Except.error (), true, true⟩

/- ----- claims ----- -/

/-- C1: when the assembler is Accumulating and the incoming line's
vertical gap from the open draft is not below the same-visual-line
threshold, a paragraph boundary is declared (one block is pushed) if
and only if the draft text ends in a sentence-terminal mark optionally
followed by one closing quote/bracket character and optional trailing
whitespace, or the line's font size strictly exceeds 1.12 times the
draft's, or the mode is accurate. -/
theorem c1_boundary_iff (mode : Mode) (avg : ℚ) (ps : List PageParagraph)
    (cur : PageParagraph) (r : RawTok) (rest : List RawTok)
    (hgap : ¬ ratAbs (r.y - cur.y) < yThreshold mode) :
    ((stepLine mode avg (ps, some cur) (r :: rest)).1).length = ps.length + 1 ↔
      (endsSentenceSpec cur.text ∨ r.fontSize > cur.fontSize * (28/25 : ℚ) ∨
        mode = Mode.accurate) := by
  rw [← boundaryTest_eq_true_iff]
  simp only [stepLine]
  rw [if_neg hgap]
  by_cases hb : boundaryTest mode cur r = true
  · rw [if_pos hb]
    simp [hb]
  · rw [if_neg hb]
    simp only [List.length_cons]
    constructor
    · intro h
      omega
    · intro h
      exact absurd h hb

/-- C1 witness: a concrete Accumulating state and incoming line with the
gap hypothesis discharged. -/
theorem c1_boundary_iff_witness :
    (¬ ratAbs ((⟨"Next", 0, 90, 10, 0⟩ : RawTok).y -
        (⟨"Done.", 10, false, 100, none⟩ : PageParagraph).y) < yThreshold Mode.fast) ∧
    (((stepLine Mode.fast 12 ([], some ⟨"Done.", 10, false, 100, none⟩)
        [⟨"Next", 0, 90, 10, 0⟩]).1).length = List.length ([] : List PageParagraph) + 1 ↔
      (endsSentenceSpec (⟨"Done.", 10, false, 100, none⟩ : PageParagraph).text ∨
        (⟨"Next", 0, 90, 10, 0⟩ : RawTok).fontSize >
          (⟨"Done.", 10, false, 100, none⟩ : PageParagraph).fontSize * (28/25 : ℚ) ∨
        Mode.fast = Mode.accurate)) :=
  ⟨by decide!, c1_boundary_iff Mode.fast 12 [] ⟨"Done.", 10, false, 100, none⟩
    ⟨"Next", 0, 90, 10, 0⟩ [] (by decide!)⟩

/-- C2 counterexample: a page whose last paragraph has font size 20 while
1.3 times the page mean is 19.5; the claim says the end-of-page flush
tags it as a heading, but mergeText leaves every heading unset. -/
theorem c2_counterexample :
    (mergeText fastNoOcr c2toks).map PageParagraph.heading = [none, none] ∧
    (mergeText fastNoOcr c2toks).map PageParagraph.fontSize = [10, 20] ∧
    averageFontSize (sortedRaws c2toks) * (13/10 : ℚ) ≤ 20 := by
  decide!

/-- C2 (amended): at end of page an Accumulating draft is finalized with
whitespace runs collapsed to single spaces and the text trimmed, but
without the heading rule: the flushed block's heading is always unset,
even for a large-font last paragraph. -/
theorem c2_end_flush (opts : ExtractOptions) (toks : List RawTok)
    (ps : List PageParagraph) (cur : PageParagraph)
    (h : runAsm opts toks = (ps, some cur)) :
    mergeText opts toks = ps ++ [finalizePara cur] ∧
    (finalizePara cur).heading = none ∧
    (finalizePara cur).text = postProcessLineBreaks cur.text ∧
    isCollapsedText (finalizePara cur).text := by
  have h2 : (runAsm opts toks).2 = some cur := by rw [h]
  have hnone : cur.heading = none := runAsm_heading_none opts toks cur h2
  refine ⟨?_, hnone, rfl, postProcess_isCollapsed cur.text⟩
  unfold mergeText
  rw [h]

/-- C2 witness: a one-token page, flushed at end of page. -/
theorem c2_end_flush_witness :
    runAsm fastNoOcr c2wtoks = ([], some ⟨"Hi", 10, false, 0, none⟩) ∧
    (mergeText fastNoOcr c2wtoks =
        [] ++ [finalizePara ⟨"Hi", 10, false, 0, none⟩] ∧
      (finalizePara (⟨"Hi", 10, false, 0, none⟩ : PageParagraph)).heading = none ∧
      (finalizePara (⟨"Hi", 10, false, 0, none⟩ : PageParagraph)).text =
        postProcessLineBreaks "Hi" ∧
      isCollapsedText (finalizePara (⟨"Hi", 10, false, 0, none⟩ : PageParagraph)).text) :=
  ⟨by decide!, c2_end_flush fastNoOcr c2wtoks [] ⟨"Hi", 10, false, 0, none⟩ (by decide!)⟩

/-- C3 counterexample: the tokens Hello and comma lying on one clustered
line are joined with an unconditional space, yielding the very string
the claim forbids. -/
theorem c3_counterexample :
    joinLine c3lineToks = "Hello ," ∧
    (mergeText fastNoOcr c3lineToks).map PageParagraph.text = ["Hello ,"] := by
  decide!

/-- C3 (amended): within one clustered line tokens are joined with an
unconditional single space; the no-space exception rules (prior ends in
whitespace, next begins with closing punctuation, prior ends in a
hyphen/dash) are applied only when a same-visual-line continuation
fragment is appended to the open draft, where joining the draft text
Hello with a fragment beginning with a comma yields Hello-comma with no
intervening space. -/
theorem c3_join_rules (mode : Mode) (avg : ℚ) (ps : List PageParagraph)
    (cur : PageParagraph) (r : RawTok) (rest : List RawTok)
    (hgap : ratAbs (r.y - cur.y) < yThreshold mode) :
    (stepLine mode avg (ps, some cur) (r :: rest) =
      (ps, some { cur with
        text := (if needsSpace cur.text r.str then cur.text ++ " " else cur.text) ++
          joinLine (r :: rest),
        y := (cur.y + r.y) / 2,
        fontSize := (cur.fontSize + r.fontSize) / 2 })) ∧
    (needsSpace cur.text r.str = true ↔
      (cur.text.data ≠ [] ∧ strEndsWith isJsWsOrNbsp cur.text = false ∧
        strHeadIs isClosingPunct r.str = false ∧ strEndsWith isDash cur.text = false)) ∧
    joinLine c3lineToks = "Hello ," ∧
    ((stepLine Mode.fast 10 ([], some ⟨"Hello", 10, false, 100, none⟩)
        [⟨",", 0, 486/5, 10, 0⟩]).2).map PageParagraph.text = some "Hello," := by
  refine ⟨?_, needsSpace_eq_true_iff cur.text r.str, by decide!, by decide!⟩
  rw [stepLine_eq, if_pos hgap]

/-- C3 witness: a concrete same-visual-line continuation. -/
theorem c3_join_rules_witness :
    (ratAbs ((486/5 : ℚ) - 100) < yThreshold Mode.fast) ∧
    ((stepLine Mode.fast 10 ([], some ⟨"Hello", 10, false, 100, none⟩)
        [⟨",", 0, 486/5, 10, 0⟩]).2).map PageParagraph.text = some "Hello," :=
  ⟨by decide!,
    (c3_join_rules Mode.fast 10 [] ⟨"Hello", 10, false, 100, none⟩
      ⟨",", 0, 486/5, 10, 0⟩ [] (by decide!)).2.2.2⟩

/-- C4 counterexample: in accurate mode two distinct clustered lines
whose vertical gap (1.8) lies between the clustering tolerance (1.5)
and the same-visual-line threshold (2.0) are merged into one paragraph
although their font sizes differ by a factor of 10. -/
theorem c4_counterexample :
    (clusterLines Mode.accurate (sortedRaws c4toks)).map (fun l => l.map RawTok.str) =
      [["a"], ["B"]] ∧
    (mergeText accNoOcr c4toks).map PageParagraph.text = ["a B"] ∧
    (100 : ℚ) > 10 * (28/25 : ℚ) := by
  decide!

/-- C4 (amended): in accurate mode, a genuine new line (gap not below
the 2.0 threshold) always declares a boundary, so such a pair of lines
is never soft-merged whatever their font sizes; merging across
clustered lines can still happen below the threshold through the
same-visual-line rule, which ignores font size. -/
theorem c4_accurate_no_soft_merge (avg : ℚ) (ps : List PageParagraph)
    (cur : PageParagraph) (r : RawTok) (rest : List RawTok)
    (hgap : ¬ ratAbs (r.y - cur.y) < yThreshold Mode.accurate) :
    stepLine Mode.accurate avg (ps, some cur) (r :: rest) =
      (ps ++ [finalizePara (markHeading avg cur)], some (newDraft (r :: rest) r)) := by
  have hb : boundaryTest Mode.accurate cur r = true := by
    simp [boundaryTest]
  rw [stepLine_eq, if_neg hgap, if_pos hb]

/-- C4 witness: a concrete genuine new line in accurate mode. -/
theorem c4_accurate_no_soft_merge_witness :
    (¬ ratAbs ((50 : ℚ) - 100) < yThreshold Mode.accurate) ∧
    stepLine Mode.accurate 12 ([], some ⟨"Body", 10, false, 100, none⟩)
        [⟨"Next", 0, 50, 10, 0⟩] =
      ([] ++ [finalizePara (markHeading 12 ⟨"Body", 10, false, 100, none⟩)],
        some (newDraft [⟨"Next", 0, 50, 10, 0⟩] ⟨"Next", 0, 50, 10, 0⟩)) :=
  ⟨by decide!, c4_accurate_no_soft_merge 12 [] ⟨"Body", 10, false, 100, none⟩
    ⟨"Next", 0, 50, 10, 0⟩ [] (by decide!)⟩

/-- C5: at a soft wrap (genuine new line, no boundary), a trailing
hyphen preceded by a letter is stripped and the next line appended with
no space, otherwise a single space is inserted; consequently conven-
followed by tion merges to convention. -/
theorem c5_soft_wrap (mode : Mode) (avg : ℚ) (ps : List PageParagraph)
    (cur : PageParagraph) (r : RawTok) (rest : List RawTok)
    (hgap : ¬ ratAbs (r.y - cur.y) < yThreshold mode)
    (hnb : boundaryTest mode cur r = false) :
    (stepLine mode avg (ps, some cur) (r :: rest) =
      (ps, some { cur with
        text := (if endsLetterHyphen cur.text then stripTrailingHyphen cur.text
                 else cur.text ++ " ") ++ joinLine (r :: rest),
        y := r.y,
        fontSize := (cur.fontSize + r.fontSize) / 2 })) ∧
    (mergeText fastNoOcr c5toks).map PageParagraph.text = ["convention"] := by
  refine ⟨?_, by decide!⟩
  rw [stepLine_eq, if_neg hgap, if_neg (by simp [hnb])]

/-- C5 witness: a concrete soft wrap with a hyphenated draft. -/
theorem c5_soft_wrap_witness :
    ((stepLine Mode.fast 12 ([], some ⟨"conven-", 10, false, 100, none⟩)
        [⟨"tion", 0, 90, 10, 0⟩]).2).map PageParagraph.text = some "convention" := by
  rw [(c5_soft_wrap Mode.fast 12 [] ⟨"conven-", 10, false, 100, none⟩
    ⟨"tion", 0, 90, 10, 0⟩ [] (by decide!) (by decide!)).1]
  decide!

/-- C6 counterexample: a page whose 1.5-times-the-mean line is the last
paragraph: it is flushed at end of page without the heading rule, so no
heading at all is produced, contradicting the claim that exactly that
line's paragraph is tagged. -/
theorem c6_counterexample :
    averageFontSize (sortedRaws c6toksC) = 10 ∧
    (mergeText accNoOcr c6toksC).map PageParagraph.fontSize = [10, 15] ∧
    (mergeText accNoOcr c6toksC).map PageParagraph.heading = [none, none] := by
  decide!

/-- C6 (amended): when a boundary finalizes a draft, the pushed block is
tagged as a level-2 heading exactly when the draft's font size is at
least 1.3 times the page mean; on an accurate-mode page whose
1.5-times-the-mean line is not the last, exactly that line's paragraph
is tagged, and at 1.1 times the mean no heading is produced. -/
theorem c6_heading_rule :
    (∀ (mode : Mode) (avg : ℚ) (ps : List PageParagraph) (cur : PageParagraph)
        (r : RawTok) (rest : List RawTok),
      ¬ ratAbs (r.y - cur.y) < yThreshold mode → boundaryTest mode cur r = true →
      cur.heading = none →
      ∃ b, (stepLine mode avg (ps, some cur) (r :: rest)).1 = ps ++ [b] ∧
        (b.heading = some 2 ↔ avg * (13/10 : ℚ) ≤ cur.fontSize)) ∧
    averageFontSize (sortedRaws c6toksA) = 10 ∧
    (mergeText accNoOcr c6toksA).map PageParagraph.heading = [some 2, none, none] ∧
    averageFontSize (sortedRaws c6toksB) = 10 ∧
    (mergeText accNoOcr c6toksB).map PageParagraph.heading = [none, none, none] := by
  refine ⟨?_, by decide!, by decide!, by decide!, by decide!⟩
  intro mode avg ps cur r rest hgap hb hnone
  refine ⟨finalizePara (markHeading avg cur), ?_, ?_⟩
  · rw [stepLine_eq, if_neg hgap, if_pos hb]
  · unfold markHeading finalizePara
    by_cases hth : avg * (13/10 : ℚ) ≤ cur.fontSize
    · simp [hth]
    · simp [hth, hnone]

/-- C6 witness: the boundary-tagging rule applied to a concrete draft. -/
theorem c6_heading_rule_witness :
    ∃ b, (stepLine Mode.fast 12 ([], some ⟨"Done.", 10, false, 100, none⟩)
        [⟨"Next", 0, 90, 10, 0⟩]).1 = [] ++ [b] ∧
      (b.heading = some 2 ↔ (12 : ℚ) * (13/10 : ℚ) ≤ 10) :=
  c6_heading_rule.1 Mode.fast 12 [] ⟨"Done.", 10, false, 100, none⟩
    ⟨"Next", 0, 90, 10, 0⟩ [] (by decide!) (by decide!) rfl

/-- C7: with OCR disabled, every page whose extraction raises
contributes exactly one paragraph block holding the literal sentinel
text, the other pages are still processed, and the job completes
reporting the document's page count. -/
theorem c7_sentinel_fallback (opts : ExtractOptions) (env : JobEnv)
    (pages : List PageFetch) (hocr : opts.enableOcr = false)
    (hdoc : env.doc = some pages) (hcw : env.contentWriteOk = true)
    (hdw : env.docsWriteOk = true) :
    (runExtraction opts env).outcome = Outcome.completed ∧
    (runExtraction opts env).reportedPages = some pages.length ∧
    (runExtraction opts env).persisted =
      some ((pages.map (noOcrPageBlocks opts)).flatten) ∧
    noOcrPageBlocks opts PageFetch.err =
      [{ kind := BlockKind.p, level := none, text := sentinelText }] := by
  have hp := processPagesFrom_noOcr opts hocr env.ocr pages 1
  have hre := runExtraction_ok opts env pages ((pages.map (noOcrPageBlocks opts)).flatten)
    hdoc hp
  have hesc : escapeAndFormat sentinelText = sentinelText := by decide
  rw [hre, if_pos hcw, if_pos hdw]
  refine ⟨rfl, rfl, rfl, ?_⟩
  show ([{ kind := BlockKind.p, level := none, text := escapeAndFormat sentinelText }] :
    List Block) = _
  rw [hesc]

/-- C7 witness: a one-page document whose only page raises, OCR off. -/
theorem c7_sentinel_fallback_witness :
    (runExtraction fastNoOcr c7env).outcome = Outcome.completed ∧
    (runExtraction fastNoOcr c7env).reportedPages = some (List.length [PageFetch.err]) ∧
    (runExtraction fastNoOcr c7env).persisted =
      some (([PageFetch.err].map (noOcrPageBlocks fastNoOcr)).flatten) ∧
    noOcrPageBlocks fastNoOcr PageFetch.err =
      [{ kind := BlockKind.p, level := none, text := sentinelText }] :=
  c7_sentinel_fallback fastNoOcr c7env [PageFetch.err] rfl rfl rfl rfl

/-- C8 counterexample: the content write commits but the subsequent
document-metadata write fails; the job reports Failed although the
block sequence has been persisted. -/
theorem c8_counterexample :
    (runExtraction fastNoOcr c8env).outcome = Outcome.failed ∧
    (runExtraction fastNoOcr c8env).persisted =
      some [{ kind := BlockKind.p, level := none, text := sentinelText }] := by
  decide!

/-- C8 (amended): the block sequence is persisted as one whole-sequence
write exactly when the document parses, the page loop succeeds and the
content-store write commits; Completed implies persisted, and an
unparseable document yields Failed with nothing persisted; but a
metadata-write failure after the content write reports Failed with the
sequence already persisted. -/
theorem c8_persistence (opts : ExtractOptions) (env : JobEnv) :
    ((runExtraction opts env).outcome = Outcome.completed →
      ∃ pages blocks, env.doc = some pages ∧
        processPagesFrom opts env.ocr 1 pages = Except.ok blocks ∧
        (runExtraction opts env).persisted = some blocks) ∧
    (env.doc = none →
      (runExtraction opts env).outcome = Outcome.failed ∧
      (runExtraction opts env).persisted = none) ∧
    ((runExtraction opts env).persisted ≠ none ↔
      (env.contentWriteOk = true ∧ ∃ pages blocks, env.doc = some pages ∧
        processPagesFrom opts env.ocr 1 pages = Except.ok blocks)) := by
  rcases hdoc : env.doc with _ | pages
  · have hre := runExtraction_none opts env hdoc
    refine ⟨?_, ?_, ?_⟩
    · intro hc
      rw [hre] at hc
      exact absurd hc (by simp)
    · intro _
      rw [hre]
      exact ⟨rfl, rfl⟩
    · rw [hre]
      simp [hdoc]
  · rcases hpp : processPagesFrom opts env.ocr 1 pages with e | blocks
    · have hre := runExtraction_err opts env pages e hdoc hpp
      refine ⟨?_, ?_, ?_⟩
      · intro hc
        rw [hre] at hc
        exact absurd hc (by simp)
      · intro hn
        exact absurd hn (by simp)
      · rw [hre]
        simp only [ne_eq, not_true_eq_false, false_iff, not_and]
        intro _ hex
        rcases hex with ⟨pages2, blocks2, hp2, hb2⟩
        cases hp2
        rw [hpp] at hb2
        cases hb2
    · have hre := runExtraction_ok opts env pages blocks hdoc hpp
      by_cases hcw : env.contentWriteOk = true
      · refine ⟨?_, ?_, ?_⟩
        · intro _
          refine ⟨pages, blocks, rfl, hpp, ?_⟩
          rw [hre, if_pos hcw]
          by_cases hdw : env.docsWriteOk = true
          · rw [if_pos hdw]
          · rw [if_neg hdw]
        · intro hn
          exact absurd hn (by simp)
        · rw [hre, if_pos hcw]
          by_cases hdw : env.docsWriteOk = true
          · rw [if_pos hdw]
            simp only [ne_eq, Option.some_ne_none, not_false_iff, true_iff]
            exact ⟨hcw, pages, blocks, rfl, hpp⟩
          · rw [if_neg hdw]
            simp only [ne_eq, Option.some_ne_none, not_false_iff, true_iff]
            exact ⟨hcw, pages, blocks, rfl, hpp⟩
      · have hcwf : ¬ env.contentWriteOk = true := hcw
        refine ⟨?_, ?_, ?_⟩
        · intro hc
          rw [hre, if_neg hcwf] at hc
          exact absurd hc (by simp)
        · intro hn
          exact absurd hn (by simp)
        · rw [hre, if_neg hcwf]
          simp only [ne_eq, not_true_eq_false, false_iff, not_and]
          intro hcw2
          exact absurd hcw2 hcw

/-- C8 witness: a completed job whose block sequence is persisted. -/
theorem c8_persistence_witness :
    ∃ pages blocks, c8envOk.doc = some pages ∧
      processPagesFrom fastNoOcr c8envOk.ocr 1 pages = Except.ok blocks ∧
      (runExtraction fastNoOcr c8envOk).persisted = some blocks :=
  (c8_persistence fastNoOcr c8envOk).1 (by decide!)

/-- C9: when two clustered lines are merged by the same-visual-line
rule, a trailing hyphen or dash on the draft text is preserved: the
draft text stays an unchanged prefix and the fragment is appended with
no space and no de-hyphenation. -/
theorem c9_same_line_keeps_hyphen (mode : Mode) (avg : ℚ) (ps : List PageParagraph)
    (cur : PageParagraph) (r : RawTok) (rest : List RawTok)
    (hgap : ratAbs (r.y - cur.y) < yThreshold mode)
    (hdash : strEndsWith isDash cur.text = true) :
    stepLine mode avg (ps, some cur) (r :: rest) =
      (ps, some { cur with
        text := cur.text ++ joinLine (r :: rest),
        y := (cur.y + r.y) / 2,
        fontSize := (cur.fontSize + r.fontSize) / 2 }) := by
  rw [stepLine_eq, if_pos hgap, needsSpace_eq_false_of_dash cur.text r.str hdash]
  simp

/-- C9 witness: conven- followed by a same-visual-line fragment keeps
the hyphen. -/
theorem c9_same_line_keeps_hyphen_witness :
    ((stepLine Mode.fast 12 ([], some ⟨"conven-", 10, false, 100, none⟩)
        [⟨"tion", 0, 486/5, 10, 0⟩]).2).map PageParagraph.text = some "conven-tion" := by
  rw [c9_same_line_keeps_hyphen Mode.fast 12 [] ⟨"conven-", 10, false, 100, none⟩
    ⟨"tion", 0, 486/5, 10, 0⟩ [] (by decide!) (by decide!)]
  decide!

/-- C10: the number of emitted blocks of a page never exceeds the number
of clustered lines, which never exceeds the number of tokens; an empty
token list yields the empty block list. -/
theorem c10_block_count (opts : ExtractOptions) (toks : List RawTok) :
    (mergeText opts toks).length ≤ (pageLines opts.mode toks).length ∧
    (pageLines opts.mode toks).length ≤ toks.length ∧
    mergeText opts [] = [] := by
  refine ⟨?_, pageLines_length_le opts.mode toks, rfl⟩
  rw [mergeText_length_eq_stCount]
  have h := foldl_stepLine_stCount opts.mode (averageFontSize (sortedRaws toks))
    (pageLines opts.mode toks) ([], none)
  unfold runAsm
  simpa [stCount] using h

end IR
